import Mathlib

/-!
Verification development for the AI accounting classification pipeline.

The backend pipeline (orchestrator, matcher stages, cache, approval
service) is described by the specification and its API testing guide but
its code is not present in the repository snapshot; those components are
modelled from the spec below, each such definition marked in its doc
comment.  The frontend page `Transactions.tsx` is present and its
`handleClassifyAll` handler is embedded directly from the source.

Confidences and amounts are modelled as rationals.
-/

namespace AIAccounting

/-- Modelled from the spec: lifecycle status of a transaction (spec §3);
the backend data model code is missing from the repository. -/
inductive TxStatus where
  | unclassified
  | classified
  | approved
deriving DecidableEq, Repr

/-- Modelled from the spec: the Transaction record (spec §3): identifier,
date, free-text description, signed amount, counterparty, lifecycle status. -/
structure Transaction where
  id : Nat
  date : String
  description : String
  amount : Rat
  counterparty : String
  status : TxStatus
deriving DecidableEq, Repr

/-- Modelled from the spec: the method tag of a classification result
(spec §3): vendor_mapping, regex_rule, embedding, ml, llm, hybrid, fallback. -/
inductive Method where
  | vendor_mapping
  | regex_rule
  | embedding
  | ml
  | llm
  | hybrid
  | fallback
deriving DecidableEq, Repr

/-- Modelled from the spec: a ClassificationResult (spec §3 and the response
format of the testing guide): predicted account id/name, confidence score,
method tag, optional rule id, similarity score and rationale. -/
structure StageResult where
  predicted_coa_id : Nat
  predicted_coa_name : String
  confidence_score : Rat
  classification_method : Method
  rule_id : Option Nat
  similarity_score : Option Rat
  reason : Option String
deriving DecidableEq, Repr

/-- The four cascade stages of the pipeline (spec §4.5). -/
inductive Stage where
  | rule
  | embed
  | ml
  | llm
deriving DecidableEq, Repr

/-- Modelled from the spec: the cascade priority order rule → embed → ml → llm
(spec §4.5, auto mode). -/
def stageOrder : List Stage := [Stage.rule, Stage.embed, Stage.ml, Stage.llm]

/-- Modelled from the spec: each matcher strategy exposes
attemptClassify : Transaction → Option Result (spec §9); the four stage
implementations are missing from the repository, so they are parameters. -/
structure Stages where
  rule : Transaction → Option StageResult
  embed : Transaction → Option StageResult
  ml : Transaction → Option StageResult
  llm : Transaction → Option StageResult

/-- Modelled from the spec: per-stage acceptance thresholds used by the
orchestrator in auto mode (spec §4.5). -/
structure Thresholds where
  rule : Rat
  embed : Rat
  ml : Rat
  llm : Rat

/-- Dispatch a stage by its tag. -/
def runStage (st : Stages) (s : Stage) (t : Transaction) : Option StageResult :=
  match s with
  | Stage.rule => st.rule t
  | Stage.embed => st.embed t
  | Stage.ml => st.ml t
  | Stage.llm => st.llm t

/-- Acceptance threshold of a stage. -/
def stageThreshold (th : Thresholds) (s : Stage) : Rat :=
  match s with
  | Stage.rule => th.rule
  | Stage.embed => th.embed
  | Stage.ml => th.ml
  | Stage.llm => th.llm

/-- Modelled from the spec: the fixed low confidence of a fallback result
(spec §4.5 and the testing guide's low-confidence band below 0.7). -/
def fallbackConfidence : Rat := 1/10

/-- Modelled from the spec: the degraded fallback result the orchestrator
emits when no stage produces a result (spec §4.5). -/
def fallbackResult : StageResult :=
  { predicted_coa_id := 0
    predicted_coa_name := "Uncategorized"
    confidence_score := fallbackConfidence
    classification_method := Method.fallback
    rule_id := none
    similarity_score := none
    reason := none }

/-- Keep the highest-confidence result seen so far (spec §4.5, auto mode). -/
def better (best : Option StageResult) (r : StageResult) : Option StageResult :=
  match best with
  | none => some r
  | some b => if b.confidence_score < r.confidence_score then some r else some b

/-- Modelled from the spec: the auto-mode cascade walk (spec §4.5): try each
remaining stage in order; a stage result whose confidence meets the stage
threshold is returned immediately; otherwise the best result seen is kept;
exhaustion yields the best seen tagged hybrid, or the fallback result. -/
def cascade (st : Stages) (th : Thresholds) (t : Transaction) :
    List Stage → Option StageResult → StageResult
  | [], best =>
    match best with
    | some b => { b with classification_method := Method.hybrid }
    | none => fallbackResult
  | s :: rest, best =>
    match runStage st s t with
    | none => cascade st th t rest best
    | some r =>
      if stageThreshold th s ≤ r.confidence_score then r
      else cascade st th t rest (better best r)

/-- Modelled from the spec: auto-mode classification (spec §4.5). -/
def classifyAuto (st : Stages) (th : Thresholds) (t : Transaction) : StageResult :=
  cascade st th t stageOrder none

/-- Modelled from the spec: single-stage classification (spec §4.5): invoke
only that stage; on no result emit a fallback result with fixed low
confidence rather than failing. -/
def classifySingle (st : Stages) (s : Stage) (t : Transaction) : StageResult :=
  match runStage st s t with
  | some r => r
  | none => fallbackResult

/-- Pipeline modes (spec §6, §9). -/
inductive Mode where
  | auto
  | rule
  | embed
  | ml
  | llm
deriving DecidableEq, Repr

/-- Modelled from the spec: mode strings accepted by the predict endpoint
(spec §6); any other string is a validation error. -/
def Mode.parse : String → Option Mode
  | "auto" => some Mode.auto
  | "rule" => some Mode.rule
  | "embed" => some Mode.embed
  | "ml" => some Mode.ml
  | "llm" => some Mode.llm
  | _ => none

/-- The single stage a non-auto mode invokes. -/
def modeOfStage (s : Stage) : Mode :=
  match s with
  | Stage.rule => Mode.rule
  | Stage.embed => Mode.embed
  | Stage.ml => Mode.ml
  | Stage.llm => Mode.llm

/-- Modelled from the spec: classification of one transaction under a mode
(spec §4.5 mode semantics). -/
def classifyMode (st : Stages) (th : Thresholds) (m : Mode) (t : Transaction) :
    StageResult :=
  match m with
  | Mode.auto => classifyAuto st th t
  | Mode.rule => classifySingle st Stage.rule t
  | Mode.embed => classifySingle st Stage.embed t
  | Mode.ml => classifySingle st Stage.ml t
  | Mode.llm => classifySingle st Stage.llm t

/-- Modelled from the spec: the ClassificationRule record (spec §3):
match pattern, target account, confidence weight, active flag. -/
structure ClassificationRule where
  id : Nat
  pattern : String
  account : Nat
  confidence_weight : Rat
  active : Bool
deriving DecidableEq, Repr

/-- Modelled from the spec: the VendorMapping record (spec §3):
vendor name → account + confidence, one active mapping per vendor. -/
structure VendorMapping where
  vendor : String
  account : Nat
  confidence : Rat
deriving DecidableEq, Repr

/-- Modelled from the spec: the persistent state the pipeline reads and
writes: transactions with their current results, the rule store and the
vendor mappings (spec §3, §4.6). -/
structure DB where
  transactions : List Transaction
  results : List (Nat × StageResult)
  rules : List ClassificationRule
  mappings : List VendorMapping
deriving Repr

/-- Look a transaction up by id. -/
def findTxn (db : DB) (tid : Nat) : Option Transaction :=
  db.transactions.find? (fun t => decide (t.id = tid))

/-- The current stored classification result of a transaction, if any. -/
def findResult (db : DB) (tid : Nat) : Option StageResult :=
  (db.results.find? (fun p => decide (p.fst = tid))).map Prod.snd

/-- Modelled from the spec: persist a freshly computed result, replacing any
prior current result for the transaction and marking it Classified
(spec §3 invariant: at most one current result per transaction). -/
def storeResult (db : DB) (tid : Nat) (r : StageResult) : DB :=
  { db with
    results := (tid, r) :: db.results.filter (fun p => decide (p.fst ≠ tid))
    transactions := db.transactions.map (fun t =>
      if t.id = tid then { t with status := TxStatus.classified } else t) }

/-- A per-item entry of a batch predict response (spec §6): either a result
or an error marker for that id. -/
inductive ItemResult where
  | ok (r : StageResult)
  | err (tid : Nat) (msg : String)
deriving DecidableEq, Repr

/-- Modelled from the spec: predict for a single transaction id (spec §4.5,
§6): an unknown id yields a per-item error marker; without force_reclassify
an existing Classified/Approved result is returned unchanged and no stage
is invoked; otherwise the cascade runs under the mode and the result is
persisted. -/
def predictOne (st : Stages) (th : Thresholds) (m : Mode) (force : Bool)
    (db : DB) (tid : Nat) : ItemResult × DB :=
  match findTxn db tid with
  | none => (ItemResult.err tid "transaction not found", db)
  | some t =>
    match findResult db tid with
    | some r0 =>
      if force = false ∧ (t.status = TxStatus.classified ∨ t.status = TxStatus.approved) then
        (ItemResult.ok r0, db)
      else
        (ItemResult.ok (classifyMode st th m t),
         storeResult db tid (classifyMode st th m t))
    | none =>
      (ItemResult.ok (classifyMode st th m t),
       storeResult db tid (classifyMode st th m t))

/-- Modelled from the spec: sequential batch processing; each transaction id
is processed independently and the state threads through (spec §4.5 batch
semantics). -/
def processBatch (st : Stages) (th : Thresholds) (m : Mode) (force : Bool) :
    List Nat → DB → List ItemResult × DB
  | [], db => ([], db)
  | tid :: rest, db =>
    ((predictOne st th m force db tid).fst ::
       (processBatch st th m force rest (predictOne st th m force db tid).snd).fst,
     (processBatch st th m force rest (predictOne st th m force db tid).snd).snd)

/-- Modelled from the spec: the predict endpoint (spec §6): an unknown mode
string is a batch-level validation error before any stage runs and nothing
is persisted; otherwise the batch is processed. -/
def predict (st : Stages) (th : Thresholds) (modeStr : String)
    (ids : List Nat) (force : Bool) (db : DB) :
    Except String (List ItemResult) × DB :=
  match Mode.parse modeStr with
  | none => (Except.error "invalid mode", db)
  | some m =>
    (Except.ok (processBatch st th m force ids db).fst,
     (processBatch st th m force ids db).snd)

/-- Modelled from the spec: normalization of a transaction description for
fingerprinting (spec §4.4). -/
def normalizeDescription (s : String) : String :=
  s.trim.toLower

/-- Modelled from the spec: the amount bucket used in the fingerprint
(spec §4.4); amounts are bucketed by their integer floor. -/
def amountBucket (a : Rat) : Int :=
  a.floor

/-- Modelled from the spec: the stable cache key derived from normalized
description plus amount bucket (spec §4.4); the stable hash is modelled by
the normalized content itself. -/
def fingerprint (t : Transaction) : String × Int :=
  (normalizeDescription t.description, amountBucket t.amount)

/-- Modelled from the spec: the Result Cache of the generative fallback
classifier, with an instrumentation counter of backend invocations
(spec §4.4). -/
structure LlmState where
  cache : List ((String × Int) × StageResult)
  backendCalls : Nat
deriving Repr

/-- Look a fingerprint up in the result cache. -/
def cacheLookup (s : LlmState) (fp : String × Int) : Option StageResult :=
  (s.cache.find? (fun p => decide (p.fst = fp))).map Prod.snd

/-- Modelled from the spec: the generative fallback classifier (spec §4.4):
on a cache hit return the cached result without any backend call; on a miss
invoke the backend, store the parsed result keyed by the fingerprint, and
return it. -/
def llmClassify (backend : Transaction → StageResult) (s : LlmState)
    (t : Transaction) : StageResult × LlmState :=
  match cacheLookup s (fingerprint t) with
  | some r => (r, s)
  | none =>
    (backend t, { cache := (fingerprint t, backend t) :: s.cache
                  backendCalls := s.backendCalls + 1 })

/-- Approve request body (spec §6, testing guide). -/
structure ApproveRequest where
  transaction_id : Nat
  approved_by : String
  create_rule : Bool
  update_vendor_mapping : Bool
  notes : String
deriving DecidableEq, Repr

/-- Approve response body (spec §6, testing guide). -/
structure ApproveResponse where
  success : Bool
  message : String
  rule_created : Bool
  vendor_mapping_updated : Bool
deriving DecidableEq, Repr

/-- Modelled from the spec: whether an equivalent active rule already exists
(spec §4.6 idempotent rule creation). -/
def equivalentActiveRuleExists (rules : List ClassificationRule)
    (pat : String) (account : Nat) : Bool :=
  rules.any (fun r => r.active && decide (r.pattern = pat) && decide (r.account = account))

/-- Modelled from the spec: the vendor/description pattern a new rule is
derived from (spec §4.6). -/
def derivedPattern (t : Transaction) : String :=
  t.counterparty

/-- A fresh rule id (one past the largest existing id). -/
def freshRuleId (rules : List ClassificationRule) : Nat :=
  (rules.foldl (fun m r => max m r.id) 0) + 1

/-- Modelled from the spec: upsert of the vendor mapping: the new mapping
supersedes any prior mapping for that vendor (spec §3, §4.6). -/
def upsertMapping (ms : List VendorMapping) (vendor : String) (account : Nat) :
    List VendorMapping :=
  { vendor := vendor, account := account, confidence := 95/100 } ::
    ms.filter (fun m => decide (m.vendor ≠ vendor))

/-- Modelled from the spec: the approve operation (spec §4.6): NotFound if
the transaction id does not exist; otherwise mark the transaction Approved;
with create_rule set, insert a derived rule unless an equivalent active
rule exists (a successful no-op reported without rule_created); with
update_vendor_mapping set, upsert the mapping; a transaction with no prior
result is a direct manual classification with nothing to derive from. -/
def approve (db : DB) (req : ApproveRequest) : ApproveResponse × DB :=
  match findTxn db req.transaction_id with
  | none =>
    ({ success := false, message := "transaction not found"
       rule_created := false, vendor_mapping_updated := false }, db)
  | some t =>
    let db1 := { db with transactions := db.transactions.map (fun u =>
      if u.id = req.transaction_id then { u with status := TxStatus.approved } else u) }
    match findResult db req.transaction_id with
    | none =>
      ({ success := true, message := "Classification approved"
         rule_created := false, vendor_mapping_updated := false }, db1)
    | some r =>
      let acct := r.predicted_coa_id
      let created :=
        req.create_rule && !equivalentActiveRuleExists db1.rules (derivedPattern t) acct
      let db2 :=
        if created then
          { db1 with rules := db1.rules ++
              [{ id := freshRuleId db1.rules, pattern := derivedPattern t
                 account := acct, confidence_weight := 9/10, active := true }] }
        else db1
      let db3 :=
        if req.update_vendor_mapping then
          { db2 with mappings := upsertMapping db2.mappings t.counterparty acct }
        else db2
      ({ success := true, message := "Classification approved"
         rule_created := created, vendor_mapping_updated := req.update_vendor_mapping }, db3)

end AIAccounting

namespace Frontend

/-- Status values used by the Transactions page (Transactions.tsx). -/
inductive FStatus where
  | classified
  | pending
  | reviewed
deriving DecidableEq, Repr

/-- The Transaction interface of Transactions.tsx. -/
structure FTransaction where
  id : Nat
  date : String
  description : String
  amount : Rat
  counterparty : String
  category : String
  confidence : Rat
  status : FStatus
deriving DecidableEq, Repr

/-- The per-element update applied by handleClassifyAll: a pending
transaction gets category Travel Expenses, confidence 0.89 and status
classified; any other transaction is returned as is (Transactions.tsx
lines 127-131). -/
def classifyPending (t : FTransaction) : FTransaction :=
  if t.status = FStatus.pending then
    { t with category := "Travel Expenses", confidence := 89/100
             status := FStatus.classified }
  else t

/-- The Classify All handler of Transactions.tsx (lines 115-139): when no
transaction is pending the list is left untouched (early return); otherwise
every element is mapped through the pending update. -/
def handleClassifyAll (ts : List FTransaction) : List FTransaction :=
  if (ts.filter (fun t => decide (t.status = FStatus.pending))).length = 0 then ts
  else ts.map classifyPending

end Frontend

namespace AIAccounting

/-- A stage is accepted in auto mode when it returns a result whose
confidence meets the stage threshold. -/
def stageAccepts (st : Stages) (th : Thresholds) (t : Transaction) (s : Stage) : Bool :=
  match runStage st s t with
  | none => false
  | some r => decide (stageThreshold th s ≤ r.confidence_score)

/-- The highest-confidence result produced by the listed stages, folded from
an accumulator. -/
def collectBest (st : Stages) (t : Transaction) :
    List Stage → Option StageResult → Option StageResult
  | [], acc => acc
  | s :: rest, acc =>
    match runStage st s t with
    | none => collectBest st t rest acc
    | some r => collectBest st t rest (better acc r)

/-- The highest-confidence result any cascade stage produces. -/
def bestSeen (st : Stages) (t : Transaction) : Option StageResult :=
  collectBest st t stageOrder none

/-- The confidence score lies in the closed unit interval. -/
def confidenceBounded (r : StageResult) : Prop :=
  0 ≤ r.confidence_score ∧ r.confidence_score ≤ 1

instance (r : StageResult) : Decidable (confidenceBounded r) := by
  unfold confidenceBounded; infer_instance

/-- Every result a stage returns has confidence in the unit interval
(the stage contracts of spec §4.1-§4.4). -/
def StagesBounded (st : Stages) : Prop :=
  ∀ s t r, runStage st s t = some r → confidenceBounded r

/-- Every stored result has confidence in the unit interval. -/
def DBBounded (db : DB) : Prop :=
  ∀ p ∈ db.results, confidenceBounded p.snd

/-! Concrete fixtures used by the witnesses. -/

def exT : Transaction :=
  { id := 1, date := "2024-01-15", description := "Amazon.com Purchase"
    amount := -90, counterparty := "Amazon.com", status := TxStatus.unclassified }

def exResult (c : Rat) (m : Method) : StageResult :=
  { predicted_coa_id := 5, predicted_coa_name := "Office Expenses"
    confidence_score := c, classification_method := m
    rule_id := none, similarity_score := none, reason := none }

def exStages : Stages :=
  { rule := fun _ => some (exResult (8/10) Method.regex_rule)
    embed := fun _ => some (exResult (85/100) Method.embedding)
    ml := fun _ => none
    llm := fun _ => some (exResult (6/10) Method.llm) }

def exTh : Thresholds :=
  { rule := 9/10, embed := 8/10, ml := 7/10, llm := 1/2 }

def exDB : DB :=
  { transactions := [{ exT with status := TxStatus.classified }]
    results := [(1, exResult (92/100) Method.vendor_mapping)]
    rules := [{ id := 1, pattern := "Amazon.com", account := 5
                confidence_weight := 9/10, active := true }]
    mappings := [] }

/-- C5: an unrecognized mode value fails validation before any stage runs:
the predict operation returns a validation error and leaves the state
untouched, so zero results are computed or persisted. -/
theorem predict_invalid_mode_rejected (st : Stages) (th : Thresholds)
    (modeStr : String) (ids : List Nat) (force : Bool) (db : DB)
    (h : Mode.parse modeStr = none) :
    predict st th modeStr ids force db = (Except.error "invalid mode", db) := by
  simp [predict, h]

/-- Witness for C5 at the testing guide's concrete input mode=invalid. -/
theorem predict_invalid_mode_rejected_witness :
    predict exStages exTh "invalid" [1] true exDB = (Except.error "invalid mode", exDB) :=
  predict_invalid_mode_rejected exStages exTh "invalid" [1] true exDB rfl

/-- C2: with force_reclassify=false and an existing result on a Classified or
Approved transaction, predict returns the stored result unchanged and leaves
the state untouched; the outcome is the same for any stage functions,
thresholds and mode (so no stage is invoked), hence two successive calls
return identical results. -/
theorem predict_idempotent_read (st st2 : Stages) (th th2 : Thresholds)
    (m m2 : Mode) (db : DB) (tid : Nat) (t : Transaction) (r0 : StageResult)
    (ht : findTxn db tid = some t)
    (hs : t.status = TxStatus.classified ∨ t.status = TxStatus.approved)
    (hr : findResult db tid = some r0) :
    predictOne st th m false db tid = (ItemResult.ok r0, db) ∧
    predictOne st2 th2 m2 false (predictOne st th m false db tid).snd tid =
      (ItemResult.ok r0, db) := by
  have h1 : predictOne st th m false db tid = (ItemResult.ok r0, db) := by
    simp [predictOne, ht, hr, hs]
  refine ⟨h1, ?_⟩
  rw [h1]
  simp [predictOne, ht, hr, hs]

/-- Witness for C2 on a classified transaction with a stored result. -/
theorem predict_idempotent_read_witness :
    predictOne exStages exTh Mode.auto false exDB 1 =
      (ItemResult.ok (exResult (92/100) Method.vendor_mapping), exDB) :=
  (predict_idempotent_read exStages exStages exTh exTh Mode.auto Mode.auto exDB 1
    { exT with status := TxStatus.classified }
    (exResult (92/100) Method.vendor_mapping)
    (by rfl) (Or.inl rfl) (by rfl)).1

/-- C3: a single-stage mode invokes only that stage: the outcome depends
only on that stage's answer (any change to the other stages or to the
thresholds leaves it unchanged), and when the stage returns no result the
operation returns the fixed-low-confidence fallback result instead of
failing or trying another stage. -/
theorem single_mode_isolated (st st2 : Stages) (th th2 : Thresholds)
    (s : Stage) (t : Transaction)
    (hsame : runStage st s t = runStage st2 s t) :
    classifyMode st th (modeOfStage s) t = classifyMode st2 th2 (modeOfStage s) t ∧
    (runStage st s t = none → classifyMode st th (modeOfStage s) t = fallbackResult) := by
  constructor
  · cases s <;>
      simp only [classifyMode, modeOfStage, classifySingle] <;> rw [hsame]
  · intro h
    cases s <;> simp only [classifyMode, modeOfStage, classifySingle] <;>
      rw [h]

/-- Witness for C3: the ml stage of the fixture returns no result, and ml
mode falls back. -/
theorem single_mode_isolated_witness :
    runStage exStages Stage.ml exT = none ∧
    classifyMode exStages exTh (modeOfStage Stage.ml) exT = fallbackResult :=
  ⟨rfl, (single_mode_isolated exStages exStages exTh exTh Stage.ml exT rfl).2 rfl⟩

/-- C4: two llm-mode calls with the same fingerprint starting from a cache
miss invoke the generation backend exactly once: the first call invokes it
and caches the parsed result under the fingerprint, and the second call
returns the cached result with no backend call and no state change. -/
theorem llm_cache_single_backend_call (backend : Transaction → StageResult)
    (s0 : LlmState) (t1 t2 : Transaction)
    (hmiss : cacheLookup s0 (fingerprint t1) = none)
    (hfp : fingerprint t1 = fingerprint t2) :
    (llmClassify backend s0 t1).snd.backendCalls = s0.backendCalls + 1 ∧
    llmClassify backend (llmClassify backend s0 t1).snd t2 =
      ((llmClassify backend s0 t1).fst, (llmClassify backend s0 t1).snd) := by
  have h1 : llmClassify backend s0 t1 =
      (backend t1, { cache := (fingerprint t1, backend t1) :: s0.cache
                     backendCalls := s0.backendCalls + 1 }) := by
    unfold llmClassify
    rw [hmiss]
  refine ⟨by rw [h1], ?_⟩
  rw [h1]
  have h2 : cacheLookup
      { cache := (fingerprint t1, backend t1) :: s0.cache
        backendCalls := s0.backendCalls + 1 } (fingerprint t2) = some (backend t1) := by
    rw [← hfp]
    simp [cacheLookup]
  unfold llmClassify
  rw [h2]

/-- Witness for C4: two llm calls on the same transaction starting from an
empty cache invoke the backend exactly once. -/
theorem llm_cache_single_backend_call_witness :
    (llmClassify (fun _ => exResult (6/10) Method.llm) ⟨[], 0⟩ exT).snd.backendCalls = 0 + 1 ∧
    llmClassify (fun _ => exResult (6/10) Method.llm)
        (llmClassify (fun _ => exResult (6/10) Method.llm) ⟨[], 0⟩ exT).snd exT =
      ((llmClassify (fun _ => exResult (6/10) Method.llm) ⟨[], 0⟩ exT).fst,
       (llmClassify (fun _ => exResult (6/10) Method.llm) ⟨[], 0⟩ exT).snd) :=
  llm_cache_single_backend_call (fun _ => exResult (6/10) Method.llm) ⟨[], 0⟩ exT exT rfl rfl

/-- C7: approving with create_rule set when an equivalent active rule
already exists succeeds, creates no duplicate (the rule store is unchanged)
and does not report rule_created. -/
theorem approve_duplicate_rule_noop (db : DB) (req : ApproveRequest)
    (t : Transaction) (r : StageResult)
    (ht : findTxn db req.transaction_id = some t)
    (hr : findResult db req.transaction_id = some r)
    (hc : req.create_rule = true)
    (hdup : equivalentActiveRuleExists db.rules (derivedPattern t) r.predicted_coa_id = true) :
    (approve db req).fst.success = true ∧
    (approve db req).fst.rule_created = false ∧
    (approve db req).snd.rules = db.rules := by
  refine ⟨by simp [approve, ht, hr, hc, hdup], by simp [approve, ht, hr, hc, hdup], ?_⟩
  simp only [approve, ht, hr, hc, hdup]
  split <;> simp

/-- Witness for C7: exDB already holds an active rule for the fixture's
counterparty and predicted account. -/
theorem approve_duplicate_rule_noop_witness :
    (approve exDB { transaction_id := 1, approved_by := "test_user"
                    create_rule := true, update_vendor_mapping := true
                    notes := "" }).fst.success = true ∧
    (approve exDB { transaction_id := 1, approved_by := "test_user"
                    create_rule := true, update_vendor_mapping := true
                    notes := "" }).fst.rule_created = false ∧
    (approve exDB { transaction_id := 1, approved_by := "test_user"
                    create_rule := true, update_vendor_mapping := true
                    notes := "" }).snd.rules = exDB.rules :=
  approve_duplicate_rule_noop exDB
    { transaction_id := 1, approved_by := "test_user"
      create_rule := true, update_vendor_mapping := true, notes := "" }
    { exT with status := TxStatus.classified }
    (exResult (92/100) Method.vendor_mapping)
    (by rfl) (by rfl) rfl (by rfl)

/-- The cascade returns the result of the first accepted stage. -/
theorem cascade_of_find_some (st : Stages) (th : Thresholds) (t : Transaction) :
    ∀ (l : List Stage) (acc : Option StageResult) (s : Stage) (r : StageResult),
      l.find? (stageAccepts st th t) = some s →
      runStage st s t = some r →
      cascade st th t l acc = r := by
  intro l
  induction l with
  | nil => intro acc s r hf _; simp at hf
  | cons a l ih =>
    intro acc s r hf hr
    by_cases hpa : stageAccepts st th t a = true
    · rw [List.find?_cons_of_pos _ hpa] at hf
      injection hf with hf
      subst hf
      have hth : stageThreshold th a ≤ r.confidence_score := by
        unfold stageAccepts at hpa
        rw [hr] at hpa
        exact of_decide_eq_true hpa
      simp only [cascade, hr, if_pos hth]
    · have hpa' : stageAccepts st th t a = false := by
        cases h : stageAccepts st th t a
        · rfl
        · exact absurd h hpa
      rw [List.find?_cons_of_neg _ (by simp [hpa'])] at hf
      cases hruna : runStage st a t with
      | none =>
        simp only [cascade, hruna]
        exact ih acc s r hf hr
      | some ra =>
        have hlt : ¬ stageThreshold th a ≤ ra.confidence_score := by
          unfold stageAccepts at hpa'
          rw [hruna] at hpa'
          exact of_decide_eq_false hpa'
        simp only [cascade, hruna, if_neg hlt]
        exact ih _ s r hf hr

/-- When no stage is accepted, the cascade returns the best result seen
tagged hybrid, or the fallback result. -/
theorem cascade_of_find_none (st : Stages) (th : Thresholds) (t : Transaction) :
    ∀ (l : List Stage) (acc : Option StageResult),
      l.find? (stageAccepts st th t) = none →
      cascade st th t l acc =
        (match collectBest st t l acc with
         | some b => { b with classification_method := Method.hybrid }
         | none => fallbackResult) := by
  intro l
  induction l with
  | nil => intro acc _; rfl
  | cons a l ih =>
    intro acc hf
    have hall := List.find?_eq_none.mp hf
    have hpa : stageAccepts st th t a = false := by
      have := hall a (List.mem_cons_self a l)
      simpa using this
    have hrest : l.find? (stageAccepts st th t) = none := by
      rw [List.find?_eq_none]
      intro x hx
      exact hall x (List.mem_cons_of_mem a hx)
    cases hruna : runStage st a t with
    | none =>
      simp only [cascade, collectBest, hruna]
      exact ih acc hrest
    | some ra =>
      have hlt : ¬ stageThreshold th a ≤ ra.confidence_score := by
        unfold stageAccepts at hpa
        rw [hruna] at hpa
        exact of_decide_eq_false hpa
      simp only [cascade, collectBest, hruna, if_neg hlt]
      exact ih _ hrest

/-- C1: in auto mode the stages are walked in the priority order
rule → embed → ml → llm; the returned result is exactly the result of the
first stage whose confidence meets its acceptance threshold (so the
classification_method is that stage's, never a later one); when no stage is
accepted the result is the highest-confidence result seen tagged hybrid, or
the fallback result when no stage produced any result. -/
theorem auto_mode_first_accepted (st : Stages) (th : Thresholds) (t : Transaction) :
    (∀ s r, stageOrder.find? (stageAccepts st th t) = some s →
        runStage st s t = some r →
        classifyAuto st th t = r ∧ stageThreshold th s ≤ r.confidence_score) ∧
    (stageOrder.find? (stageAccepts st th t) = none →
      classifyAuto st th t =
        (match bestSeen st t with
         | some b => { b with classification_method := Method.hybrid }
         | none => fallbackResult)) := by
  constructor
  · intro s r hf hr
    refine ⟨cascade_of_find_some st th t stageOrder none s r hf hr, ?_⟩
    have hp := List.find?_some hf
    unfold stageAccepts at hp
    rw [hr] at hp
    exact of_decide_eq_true hp
  · intro hf
    exact cascade_of_find_none st th t stageOrder none hf

/-- Witness for C1: on the fixture the rule stage misses its threshold and
the embed stage is the first accepted one, so auto mode returns the
embedding result. -/
theorem auto_mode_first_accepted_witness :
    classifyAuto exStages exTh exT = exResult (85/100) Method.embedding ∧
    stageThreshold exTh Stage.embed ≤ (exResult (85/100) Method.embedding).confidence_score := by
  have h1 : stageAccepts exStages exTh exT Stage.rule = false := by
    norm_num [stageAccepts, runStage, exStages, stageThreshold, exTh, exResult]
  have h2 : stageAccepts exStages exTh exT Stage.embed = true := by
    norm_num [stageAccepts, runStage, exStages, stageThreshold, exTh, exResult]
  have hf : stageOrder.find? (stageAccepts exStages exTh exT) = some Stage.embed := by
    show List.find? _ [Stage.rule, Stage.embed, Stage.ml, Stage.llm] = _
    rw [List.find?_cons_of_neg _ (by simp [h1]), List.find?_cons_of_pos _ h2]
  exact (auto_mode_first_accepted exStages exTh exT).1 Stage.embed
    (exResult (85/100) Method.embedding) hf rfl

/-- A map that leaves a predicate invariant preserves an empty find?. -/
theorem find?_map_none {α : Type} (f : α → α) (p : α → Bool)
    (hp : ∀ a, p (f a) = p a) (l : List α) (h : l.find? p = none) :
    (l.map f).find? p = none := by
  rw [List.find?_eq_none] at h ⊢
  intro x hx
  obtain ⟨y, hy, rfl⟩ := List.mem_map.mp hx
  rw [hp y]
  exact h y hy

/-- Persisting a result never adds a transaction. -/
theorem findTxn_store_none (db : DB) (tid x : Nat) (r : StageResult)
    (h : findTxn db x = none) : findTxn (storeResult db tid r) x = none :=
  find?_map_none _ _ (fun a => by by_cases ha : a.id = tid <;> simp [ha]) _ h

/-- predict on one id never adds a transaction. -/
theorem predictOne_preserves_missing (st : Stages) (th : Thresholds) (m : Mode)
    (force : Bool) (db : DB) (tid x : Nat) (h : findTxn db x = none) :
    findTxn (predictOne st th m force db tid).snd x = none := by
  unfold predictOne
  split
  · exact h
  · split
    · split
      · exact h
      · exact findTxn_store_none db tid x _ h
    · exact findTxn_store_none db tid x _ h

/-- Splitting a batch around an unknown id: the unknown id contributes
exactly one error entry and leaves the state untouched, and the rest of the
batch is processed exactly as if the unknown id were absent. -/
theorem processBatch_split (st : Stages) (th : Thresholds) (m : Mode)
    (force : Bool) (bad : Nat) :
    ∀ (ids1 : List Nat) (db : DB) (ids2 : List Nat), findTxn db bad = none →
      processBatch st th m force (ids1 ++ bad :: ids2) db =
        ((processBatch st th m force ids1 db).fst ++
          ItemResult.err bad "transaction not found" ::
            (processBatch st th m force ids2 (processBatch st th m force ids1 db).snd).fst,
         (processBatch st th m force ids2 (processBatch st th m force ids1 db).snd).snd) := by
  intro ids1
  induction ids1 with
  | nil =>
    intro db ids2 h
    have hb : predictOne st th m force db bad =
        (ItemResult.err bad "transaction not found", db) := by
      unfold predictOne
      rw [h]
    simp only [List.nil_append, processBatch, hb]
  | cons i ids1 ih =>
    intro db ids2 h
    have h2 : findTxn (predictOne st th m force db i).snd bad = none :=
      predictOne_preserves_missing st th m force db i bad h
    simp only [List.cons_append, processBatch, List.append_eq]
    rw [ih (predictOne st th m force db i).snd ids2 h2]

/-- C6: a batch containing an unknown transaction id yields a per-item error
marker for that id within a successfully returned response (no exception),
and every other id in the batch is processed exactly as it would be without
the unknown id. -/
theorem predict_unknown_id_isolated (st : Stages) (th : Thresholds)
    (modeStr : String) (m : Mode) (force : Bool) (db : DB)
    (ids1 ids2 : List Nat) (bad : Nat)
    (hm : Mode.parse modeStr = some m)
    (hb : findTxn db bad = none) :
    predict st th modeStr (ids1 ++ bad :: ids2) force db =
      (Except.ok ((processBatch st th m force ids1 db).fst ++
         ItemResult.err bad "transaction not found" ::
           (processBatch st th m force ids2 (processBatch st th m force ids1 db).snd).fst),
       (processBatch st th m force ids2 (processBatch st th m force ids1 db).snd).snd) := by
  simp only [predict, hm]
  rw [processBatch_split st th m force bad ids1 db ids2 hb]

/-- Witness for C6 at the testing guide's input ids=[999999]: one
error-marked item, response returned, state untouched. -/
theorem predict_unknown_id_isolated_witness :
    predict exStages exTh "auto" [999999] true exDB =
      (Except.ok [ItemResult.err 999999 "transaction not found"], exDB) :=
  predict_unknown_id_isolated exStages exTh "auto" Mode.auto true exDB
    [] [] 999999 rfl (by rfl)

/-- The fallback result's fixed confidence lies in the unit interval. -/
theorem fallback_bounded : confidenceBounded fallbackResult := by
  norm_num [confidenceBounded, fallbackResult, fallbackConfidence]

/-- Keeping the best of bounded results stays bounded. -/
theorem better_bounded (acc : Option StageResult) (r : StageResult)
    (hacc : ∀ b, acc = some b → confidenceBounded b) (hr : confidenceBounded r) :
    ∀ b, better acc r = some b → confidenceBounded b := by
  intro b hb
  cases acc with
  | none =>
    simp only [better] at hb
    injection hb with hb
    subst hb
    exact hr
  | some a =>
    simp only [better] at hb
    by_cases hlt : a.confidence_score < r.confidence_score
    · rw [if_pos hlt] at hb
      injection hb with hb
      subst hb
      exact hr
    · rw [if_neg hlt] at hb
      injection hb with hb
      subst hb
      exact hacc a rfl

/-- Every result the cascade returns is bounded when the stages respect
their contracts. -/
theorem cascade_bounded (st : Stages) (th : Thresholds) (t : Transaction)
    (hst : StagesBounded st) :
    ∀ (l : List Stage) (acc : Option StageResult),
      (∀ b, acc = some b → confidenceBounded b) →
      confidenceBounded (cascade st th t l acc) := by
  intro l
  induction l with
  | nil =>
    intro acc hacc
    cases acc with
    | none => exact fallback_bounded
    | some b =>
      have hb := hacc b rfl
      simpa [cascade, confidenceBounded] using hb
  | cons s l ih =>
    intro acc hacc
    cases hrs : runStage st s t with
    | none =>
      simp only [cascade, hrs]
      exact ih acc hacc
    | some r =>
      have hr := hst s t r hrs
      by_cases hth : stageThreshold th s ≤ r.confidence_score
      · simp only [cascade, hrs, if_pos hth]
        exact hr
      · simp only [cascade, hrs, if_neg hth]
        exact ih _ (better_bounded acc r hacc hr)

/-- Every result a single-stage mode returns is bounded. -/
theorem classifySingle_bounded (st : Stages) (s : Stage) (t : Transaction)
    (hst : StagesBounded st) : confidenceBounded (classifySingle st s t) := by
  cases h : runStage st s t with
  | none => simp only [classifySingle, h]; exact fallback_bounded
  | some r => simp only [classifySingle, h]; exact hst s t r h

/-- Every result classification returns, in every mode, is bounded. -/
theorem classifyMode_bounded (st : Stages) (th : Thresholds) (m : Mode)
    (t : Transaction) (hst : StagesBounded st) :
    confidenceBounded (classifyMode st th m t) := by
  cases m with
  | auto =>
    exact cascade_bounded st th t hst stageOrder none (by intro b hb; cases hb)
  | rule => exact classifySingle_bounded st Stage.rule t hst
  | embed => exact classifySingle_bounded st Stage.embed t hst
  | ml => exact classifySingle_bounded st Stage.ml t hst
  | llm => exact classifySingle_bounded st Stage.llm t hst

/-- A stored result found in a bounded store is bounded. -/
theorem findResult_bounded (db : DB) (tid : Nat) (r : StageResult)
    (hdb : DBBounded db) (h : findResult db tid = some r) :
    confidenceBounded r := by
  unfold findResult at h
  obtain ⟨q, hq, hqr⟩ := Option.map_eq_some'.mp h
  subst hqr
  exact hdb q (List.mem_of_find?_eq_some hq)

/-- Persisting a bounded result keeps the store bounded. -/
theorem storeResult_DBBounded (db : DB) (tid : Nat) (r : StageResult)
    (hdb : DBBounded db) (hr : confidenceBounded r) :
    DBBounded (storeResult db tid r) := by
  intro p hp
  rcases List.mem_cons.mp hp with h | h
  · subst h
    exact hr
  · exact hdb p (List.mem_of_mem_filter h)

/-- predict on one id returns a bounded result and keeps the store bounded. -/
theorem predictOne_bounded (st : Stages) (th : Thresholds) (m : Mode)
    (force : Bool) (db : DB) (tid : Nat)
    (hst : StagesBounded st) (hdb : DBBounded db) :
    (∀ r, (predictOne st th m force db tid).fst = ItemResult.ok r → confidenceBounded r) ∧
    DBBounded (predictOne st th m force db tid).snd := by
  unfold predictOne
  split
  · refine ⟨?_, hdb⟩
    intro r h
    exact absurd h (by simp)
  · rename_i t h1
    split
    · rename_i r0 h2
      split
      · refine ⟨?_, hdb⟩
        intro r h
        injection h with h
        subst h
        exact findResult_bounded db tid r0 hdb h2
      · refine ⟨?_, storeResult_DBBounded db tid _ hdb (classifyMode_bounded st th m t hst)⟩
        intro r h
        injection h with h
        subst h
        exact classifyMode_bounded st th m t hst
    · refine ⟨?_, storeResult_DBBounded db tid _ hdb (classifyMode_bounded st th m t hst)⟩
      intro r h
      injection h with h
      subst h
      exact classifyMode_bounded st th m t hst

/-- Every item of a processed batch is bounded and the store stays bounded. -/
theorem processBatch_bounded (st : Stages) (th : Thresholds) (m : Mode)
    (force : Bool) (hst : StagesBounded st) :
    ∀ (ids : List Nat) (db : DB), DBBounded db →
      (∀ it ∈ (processBatch st th m force ids db).fst,
        ∀ r, it = ItemResult.ok r → confidenceBounded r) ∧
      DBBounded (processBatch st th m force ids db).snd := by
  intro ids
  induction ids with
  | nil =>
    intro db hdb
    refine ⟨?_, hdb⟩
    intro it hit
    exact absurd hit (by simp [processBatch])
  | cons i ids ih =>
    intro db hdb
    have hone := predictOne_bounded st th m force db i hst hdb
    have hrest := ih (predictOne st th m force db i).snd hone.2
    refine ⟨?_, hrest.2⟩
    intro it hit r hr
    rcases List.mem_cons.mp hit with h | h
    · subst h
      exact hone.1 r hr
    · exact hrest.1 it h r hr

/-- C8: every result the predict operation returns, in every mode and for
every transaction, has a confidence score in the closed interval [0,1],
provided the stage contracts and the stored results respect it; the store
it leaves behind is bounded as well. -/
theorem predict_confidence_in_unit_interval (st : Stages) (th : Thresholds)
    (modeStr : String) (ids : List Nat) (force : Bool) (db : DB)
    (L : List ItemResult) (db2 : DB)
    (hst : StagesBounded st) (hdb : DBBounded db)
    (hrun : predict st th modeStr ids force db = (Except.ok L, db2)) :
    (∀ it ∈ L, ∀ r, it = ItemResult.ok r → confidenceBounded r) ∧
    DBBounded db2 := by
  unfold predict at hrun
  cases hm : Mode.parse modeStr with
  | none =>
    rw [hm] at hrun
    simp at hrun
  | some m =>
    rw [hm] at hrun
    have h1 : (processBatch st th m force ids db).fst = L := by
      have := congrArg Prod.fst hrun
      simpa using this
    have h2 : (processBatch st th m force ids db).snd = db2 := congrArg Prod.snd hrun
    rw [← h1, ← h2]
    exact processBatch_bounded st th m force hst ids db hdb

/-- Witness for C8 on a concrete auto-mode predict run over the fixture. -/
theorem predict_confidence_in_unit_interval_witness :
    confidenceBounded (exResult (85/100) Method.embedding) := by
  have hst : StagesBounded exStages := by
    intro s t r h
    cases s <;> simp only [runStage, exStages, Option.some.injEq] at h
    case ml => exact absurd h (by simp)
    all_goals subst h
    all_goals norm_num [confidenceBounded, exResult]
  have hdb : DBBounded exDB := by
    intro p hp
    simp only [exDB, List.mem_singleton] at hp
    subst hp
    norm_num [confidenceBounded, exResult]
  have h1 : stageAccepts exStages exTh { exT with status := TxStatus.classified } Stage.rule = false := by
    norm_num [stageAccepts, runStage, exStages, stageThreshold, exTh, exResult]
  have h2 : stageAccepts exStages exTh { exT with status := TxStatus.classified } Stage.embed = true := by
    norm_num [stageAccepts, runStage, exStages, stageThreshold, exTh, exResult]
  have hf : stageOrder.find?
      (stageAccepts exStages exTh { exT with status := TxStatus.classified }) = some Stage.embed := by
    show List.find? _ [Stage.rule, Stage.embed, Stage.ml, Stage.llm] = _
    rw [List.find?_cons_of_neg _ (by simp [h1]), List.find?_cons_of_pos _ h2]
  have hclass : classifyMode exStages exTh Mode.auto { exT with status := TxStatus.classified } =
      exResult (85/100) Method.embedding :=
    cascade_of_find_some exStages exTh { exT with status := TxStatus.classified }
      stageOrder none Stage.embed (exResult (85/100) Method.embedding) hf rfl
  have hone : predictOne exStages exTh Mode.auto true exDB 1 =
      (ItemResult.ok (exResult (85/100) Method.embedding),
       storeResult exDB 1 (exResult (85/100) Method.embedding)) := by
    unfold predictOne
    simp only [show findTxn exDB 1 = some { exT with status := TxStatus.classified } from rfl,
      show findResult exDB 1 = some (exResult (92/100) Method.vendor_mapping) from rfl]
    rw [if_neg (by simp)]
    rw [hclass]
  have hrun : predict exStages exTh "auto" [1] true exDB =
      (Except.ok [ItemResult.ok (exResult (85/100) Method.embedding)],
       storeResult exDB 1 (exResult (85/100) Method.embedding)) := by
    simp only [predict, show Mode.parse "auto" = some Mode.auto from rfl, processBatch, hone]
  have main := predict_confidence_in_unit_interval exStages exTh "auto" [1] true exDB
    [ItemResult.ok (exResult (85/100) Method.embedding)]
    (storeResult exDB 1 (exResult (85/100) Method.embedding)) hst hdb hrun
  exact main.1 (ItemResult.ok (exResult (85/100) Method.embedding))
    (List.mem_singleton.mpr rfl) (exResult (85/100) Method.embedding) rfl

end AIAccounting

namespace Frontend

/-- C10: Classify All is a per-element map: a pending transaction gets
category Travel Expenses, confidence 0.89 and status classified; every
non-pending transaction keeps all of its fields; with no pending
transaction the list is returned entirely unchanged. -/
theorem handleClassifyAll_frame (ts : List FTransaction) :
    handleClassifyAll ts = ts.map classifyPending ∧
    (∀ t, t.status ≠ FStatus.pending → classifyPending t = t) ∧
    (∀ t, t.status = FStatus.pending →
      classifyPending t = { t with category := "Travel Expenses"
                                   confidence := 89/100
                                   status := FStatus.classified }) ∧
    ((∀ t ∈ ts, t.status ≠ FStatus.pending) → handleClassifyAll ts = ts) := by
  have hkeep : ∀ t : FTransaction, t.status ≠ FStatus.pending → classifyPending t = t := by
    intro t h
    simp [classifyPending, h]
  have hmapid : (∀ t ∈ ts, t.status ≠ FStatus.pending) → ts.map classifyPending = ts := by
    intro h
    rw [List.map_congr_left (fun a ha => hkeep a (h a ha))]
    exact List.map_id' ts
  have hmain : handleClassifyAll ts = ts.map classifyPending := by
    unfold handleClassifyAll
    split
    · next hz =>
      have hnil := List.length_eq_zero.mp hz
      have hall := List.filter_eq_nil_iff.mp hnil
      exact (hmapid (by simpa using hall)).symm
    · rfl
  refine ⟨hmain, hkeep, ?_, fun h => hmain.trans (hmapid h)⟩
  intro t h
  simp [classifyPending, h]

/-- Witness for C10 on the mock data of the page: the pending Uber row is
classified, the reviewed row is untouched, and a list with no pending row is
unchanged. -/
theorem handleClassifyAll_frame_witness :
    handleClassifyAll
        [⟨4, "2024-01-10", "Uber Ride to Airport", -4567/100, "Uber", "", 0, FStatus.pending⟩,
         ⟨3, "2024-01-12", "Client Payment - XYZ Corp", 2500, "XYZ Corp", "Revenue", 99/100, FStatus.reviewed⟩] =
      [⟨4, "2024-01-10", "Uber Ride to Airport", -4567/100, "Uber", "Travel Expenses", 89/100, FStatus.classified⟩,
       ⟨3, "2024-01-12", "Client Payment - XYZ Corp", 2500, "XYZ Corp", "Revenue", 99/100, FStatus.reviewed⟩] ∧
    handleClassifyAll
        [⟨3, "2024-01-12", "Client Payment - XYZ Corp", 2500, "XYZ Corp", "Revenue", 99/100, FStatus.reviewed⟩] =
      [⟨3, "2024-01-12", "Client Payment - XYZ Corp", 2500, "XYZ Corp", "Revenue", 99/100, FStatus.reviewed⟩] := by
  constructor
  · rw [(handleClassifyAll_frame _).1]
    rfl
  · exact (handleClassifyAll_frame _).2.2.2 (by decide)

end Frontend
